import Mathlib

/-!
Verification of the pydle `BasicClient` core (src/pydle/client.py) against its
natural-language specification.

The shallow embedding below translates the relevant parts of the source:
Python dicts become association lists (`List (String × α)`) with the usual
first-match lookup semantics, Python sets become `List String` with
membership-based add and filter-based discard, raising an exception becomes
returning `none` / `Except.error`, and the entity-store / dispatch /
reconnection methods of `BasicClient` become state-passing functions.
-/

set_option autoImplicit false

namespace Pydle

/-- A user record, mirroring the dict created by `BasicClient._create_user`:
`{'nickname': ..., 'username': None, 'realname': None, 'hostname': None}`. -/
structure UserRec where
  nickname : String
  username : Option String
  realname : Option String
  hostname : Option String
deriving DecidableEq, Repr

/-- The mutable state of one `BasicClient` instance, restricted to the
attributes the verified methods read or write:
`self.connection`/`connected`, `self.channels`, `self.users`,
`self._receive_buffer`, `self._reconnect_attempts`, `self._handler_top_level`. -/
structure ClientState where
  connected : Bool
  channels : List (String × List String)
  users : List (String × UserRec)
  receive_buffer : List Char
  reconnect_attempts : Nat
  handler_top_level : Bool
deriving DecidableEq, Repr

/-! ### Python dict / set primitives over association lists -/

/-- `d[k]` as an `Option` (first entry whose key equals `k`). -/
def dictGet {α : Type} (k : String) : List (String × α) → Option α
  | [] => none
  | (k', v) :: rest => if k' = k then some v else dictGet k rest

/-- `d[k] = v`: replace the first entry with key `k`, or append if absent. -/
def dictInsert {α : Type} (k : String) (v : α) : List (String × α) → List (String × α)
  | [] => [(k, v)]
  | (k', v') :: rest => if k' = k then (k, v) :: rest else (k', v') :: dictInsert k v rest

/-- `del d[k]` on a key known to be present: remove the first entry with key `k`. -/
def dictErase {α : Type} (k : String) : List (String × α) → List (String × α)
  | [] => []
  | (k', v') :: rest => if k' = k then rest else (k', v') :: dictErase k rest

/-- `del d[k]` in general: `none` models the `KeyError` raised when `k` is absent. -/
def dictDel {α : Type} (k : String) (d : List (String × α)) : Option (List (String × α)) :=
  if (dictGet k d).isSome then some (dictErase k d) else none

/-- `s.discard(x)` on a Python set. -/
def setDiscard (x : String) (s : List String) : List String :=
  s.filter (fun y => !(decide (y = x)))

/-- `s.add(x)` on a Python set. -/
def setAdd (x : String) (s : List String) : List String :=
  if x ∈ s then s else s ++ [x]

/-! ### Entity store operations (client.py lines 161–221) -/

/-- `BasicClient._create_channel`: `self.channels[channel] = {'users': set()}`. -/
def _create_channel (st : ClientState) (channel : String) : ClientState :=
  { st with channels := dictInsert channel [] st.channels }

/-- `BasicClient._create_user`: servers (names containing `'.'`) and empty
names are not users; otherwise insert a fresh record. -/
def _create_user (st : ClientState) (nickname : String) : ClientState :=
  if nickname.isEmpty || nickname.contains '.' then st
  else { st with users := dictInsert nickname ⟨nickname, none, none, none⟩ st.users }

/-- `BasicClient._rename_user`.  When `user` exists, its record is re-keyed to
`new` (`self.users[new] = self.users[user]`, nickname field updated,
`del self.users[user]` — the key `user` is present here, so the plain erase is
exact); otherwise `new` is created fresh and, if creation was suppressed,
the method returns before touching any channel.  In both surviving paths every
channel whose member set contains `user` gets `user` discarded and `new` added. -/
def _rename_user (st : ClientState) (user new : String) : ClientState :=
  match dictGet user st.users with
  | some u =>
    let users1 := dictInsert new { u with nickname := new } st.users
    let users2 := dictErase user users1
    { st with
      users := users2,
      channels := st.channels.map (fun p =>
        if user ∈ p.2 then (p.1, setAdd new (setDiscard user p.2)) else p) }
  | none =>
    let st1 := _create_user st new
    if (dictGet new st1.users).isSome then
      { st1 with channels := st1.channels.map (fun p =>
          if user ∈ p.2 then (p.1, setAdd new (setDiscard user p.2)) else p) }
    else st1

/-- `BasicClient._destroy_user`.  With a channel argument, `self.channels[channel]`
itself can raise `KeyError` (modelled as `none`); the nickname is discarded from
that channel (or from every channel when no argument is given), and then — when no
channel argument was given, or the nickname is in no channel set any more —
`del self.users[nickname]` runs, unguarded, so a missing record is a `KeyError`. -/
def _destroy_user (st : ClientState) (nickname : String) (channel : Option String) :
    Option ClientState :=
  match channel with
  | some c =>
    match dictGet c st.channels with
    | none => none
    | some mem =>
      let st1 := { st with channels := dictInsert c (setDiscard nickname mem) st.channels }
      if st1.channels.any (fun p => decide (nickname ∈ p.2)) then some st1
      else (dictDel nickname st1.users).map (fun us => { st1 with users := us })
  | none =>
    let chans := st.channels.map (fun (p : String × List String) => (p.1, setDiscard nickname p.2))
    let st1 := { st with channels := chans }
    (dictDel nickname st1.users).map (fun us => { st1 with users := us })

/-- `BasicClient._destroy_channel`: iterate over a snapshot of the member set,
destroying each member scoped to this channel, then `del self.channels[channel]`
(the channel key is still present after the loop, so the plain erase is exact). -/
def _destroy_channel (st : ClientState) (channel : String) : Option ClientState :=
  match dictGet channel st.channels with
  | none => none
  | some mem =>
    (mem.foldlM (fun s u => _destroy_user s u (some channel)) st).map
      (fun st1 => { st1 with channels := dictErase channel st1.channels })

/-! ### Reconnection policy (client.py lines 37–41, 151–157, 299–323) -/

/-- `BasicClient.RECONNECT_ON_ERROR`. -/
def RECONNECT_ON_ERROR : Bool := true

/-- `BasicClient.RECONNECT_MAX_ATTEMPTS` (`None` would mean unbounded). -/
def RECONNECT_MAX_ATTEMPTS : Option Nat := some 3

/-- `BasicClient.RECONNECT_DELAYED`. -/
def RECONNECT_DELAYED : Bool := true

/-- `BasicClient.RECONNECT_DELAYS`. -/
def RECONNECT_DELAYS : List Nat := [5, 5, 10, 30, 120, 600]

/-- `BasicClient._reconnect_delay`: table lookup by attempt count, clamped to
the last entry (`RECONNECT_DELAYS[-1]`) once the table is exhausted. -/
def _reconnect_delay (attempts : Nat) : Nat :=
  if RECONNECT_ON_ERROR && RECONNECT_DELAYED then
    if attempts ≥ RECONNECT_DELAYS.length then RECONNECT_DELAYS.getLastD 0
    else RECONNECT_DELAYS.getD attempts 0
  else 0

/-- What `BasicClient.on_disconnect` does after its checks: schedule a delayed
`connect(reconnect=True)`, give up with a terminal log message, or (for an
expected disconnect) nothing. -/
inductive ReconnectAction where
  | reconnect (delay : Nat)
  | giveUp
  | nothing
deriving DecidableEq, Repr

/-- `BasicClient.on_disconnect`, as a transition on the attempt counter: for an
unexpected disconnect with reconnection enabled and the counter under the
maximum, compute the delay from the current counter, increment the counter and
re-invoke `connect(reconnect=True)` after the delay; otherwise give up. -/
def on_disconnect (expected : Bool) (attempts : Nat) : Nat × ReconnectAction :=
  if expected then (attempts, .nothing)
  else if RECONNECT_ON_ERROR && (RECONNECT_MAX_ATTEMPTS.elim true (fun m => decide (attempts < m))) then
    (attempts + 1, .reconnect (_reconnect_delay attempts))
  else (attempts, .giveUp)

/-- `BasicClient.on_connect`: `self._reconnect_attempts = 0`. -/
def on_connect_reset (_ : Nat) : Nat := 0

/-- Attempt counter after `n` consecutive unexpected disconnects starting from a
freshly connected client (counter `0`) with no intervening successful connect. -/
def afterDisconnects : Nat → Nat
  | 0 => 0
  | n + 1 => (on_disconnect false (afterDisconnects n)).1

/-! ### Connection lifecycle (client.py lines 72–137) -/

/-- Python falsiness of the `hostname` argument (`None` or the empty string). -/
def falsy_str : Option String → Bool
  | none => true
  | some s => s.isEmpty

/-- Python falsiness of the `port` argument (`None` or `0`). -/
def falsy_nat : Option Nat → Bool
  | none => true
  | some n => n == 0

/-- `BasicClient._reset_attributes`: empty the entity store, the receive buffer
and the dispatch flag (the logger / nickname / network resets have no
counterpart in the modelled state). -/
def _reset_attributes (st : ClientState) : ClientState :=
  { st with channels := [], users := [], receive_buffer := [], handler_top_level := false }

/-- `BasicClient._reset_connection_attributes`: drop the connection object
(hence not connected) and zero the reconnect attempt counter. -/
def _reset_connection_attributes (st : ClientState) : ClientState :=
  { st with connected := false, reconnect_attempts := 0 }

/-- `BasicClient._disconnect`: shut the transport down, reset attributes, and
invoke `on_disconnect(expected)`.  For `expected = true` — the only way this is
reached from `connect` — the callback takes no action on the modelled state. -/
def _disconnect_expected (st : ClientState) : ClientState :=
  _reset_attributes { st with connected := false }

/-- `BasicClient._connect` (via `connection.Connection(...).connect()`):
the transport is established, so `self.connected` becomes true. -/
def _connect_transport (st : ClientState) : ClientState :=
  { st with connected := true }

/-- `BasicClient.connect`: raise `ValueError` when `(not hostname or not port)
and not reconnect`; otherwise disconnect first if connected, reset the
connection attributes unless reconnecting, and establish. -/
def connect (st : ClientState) (hostname : Option String) (port : Option Nat)
    (reconnect : Bool) : Except String ClientState :=
  if (falsy_str hostname || falsy_nat port) && !reconnect then
    .error "Have to specify hostname and port if not reconnecting."
  else
    let st1 := if st.connected then _disconnect_expected st else st
    let st2 := if !reconnect then _reset_connection_attributes st1 else st1
    .ok (_connect_transport st2)

/-! ### Dispatch engine (client.py lines 369–431, framing from tests/mocks.py) -/

/-- A message command: `message.command` is an `int` or a `str` in the source. -/
inductive Command where
  | str (s : String)
  | num (n : Nat)
deriving DecidableEq, Repr

/-- A parsed message, restricted to the fields `on_raw` reads. -/
structure Message where
  command : Command
  valid : Bool
  raw : String
deriving DecidableEq, Repr

/-- Python `str(n).zfill(3)` for a non-negative `n`. -/
def zfill3 (n : Nat) : String :=
  let s := toString n
  if s.length ≥ 3 then s else String.mk (List.replicate (3 - s.length) '0') ++ s

/-- `str(message.command).zfill(3)` for numeric commands, the command itself
otherwise (client.py lines 390–393). -/
def commandString : Command → String
  | .num n => zfill3 n
  | .str s => s

/-- Python `s.startswith(pre)`. -/
def strStartsWith (s pre : String) : Bool :=
  pre.data.isPrefixOf s.data

/-- What attribute lookup resolves a handler name to. -/
inductive ResolvedHandler where
  | defined
  | onUnknown
  | ignored
deriving DecidableEq, Repr

/-- `BasicClient.__getattr__` — invoked exactly when normal attribute lookup
fails: an undefined `on_raw_*` name resolves to `on_unknown` at top level and to
`_ignored` otherwise; any other undefined name raises `AttributeError(attr)`. -/
def getattr_fallback (handler_top_level : Bool) (attr : String) :
    Except String ResolvedHandler :=
  if strStartsWith attr "on_raw_" then
    if handler_top_level then .ok .onUnknown else .ok .ignored
  else .error attr

/-- `getattr(self, attr)`: a defined attribute is returned directly, otherwise
`__getattr__` decides.  `hasAttrF` says which `on_raw_*` handlers the concrete
(sub)class defines. -/
def resolve (hasAttrF : String → Bool) (handler_top_level : Bool) (attr : String) :
    Except String ResolvedHandler :=
  if hasAttrF attr then .ok .defined else getattr_fallback handler_top_level attr

/-- `BasicClient.on_raw`: build the handler name, set `_handler_top_level`,
resolve, clear the flag, invoke the handler — all inside a bare `try`/`except`
that logs any exception.  A handler is `impl : String → Message → Except String Unit`
(`Except.error` models a raised exception); `on_unknown` and `_ignored` only log
or do nothing.  The second component is the exception caught and logged, if any:
the return type not being `Except` is exactly the guarantee that nothing
propagates out of `on_raw`. -/
def on_raw (hasAttrF : String → Bool) (impl : String → Message → Except String Unit)
    (st : ClientState) (m : Message) : ClientState × Option String :=
  let method := "on_raw_" ++ (commandString m.command).toLower
  let st1 := { st with handler_top_level := true }
  match resolve hasAttrF st1.handler_top_level method with
  | .error e => (st1, some e)
  | .ok h =>
    let st2 := { st1 with handler_top_level := false }
    let outcome : Except String Unit :=
      match h with
      | .defined => impl method m
      | .onUnknown => .ok ()
      | .ignored => .ok ()
    match outcome with
    | .ok _ => (st2, none)
    | .error e => (st2, some e)

/-- First occurrence of the `b'\r\n'` separator: `some (line, rest)` splits the
buffer around it, `none` means no complete message (`mock_has_message` false). -/
def splitFirst : List Char → Option (List Char × List Char)
  | [] => none
  | c :: rest =>
    if c = '\r' ∧ rest.head? = some '\n' then some ([], rest.tail)
    else (splitFirst rest).map (fun p => (c :: p.1, p.2))

theorem splitFirst_length :
    ∀ (l a b : List Char), splitFirst l = some (a, b) → b.length < l.length := by
  intro l
  induction l with
  | nil => intro a b h; simp [splitFirst] at h
  | cons c rest ih =>
    intro a b h
    rw [splitFirst] at h
    split at h
    · rename_i hc
      cases h
      cases rest with
      | nil => simp at hc
      | cons c2 rest2 => simp only [List.tail_cons, List.length_cons]; omega
    · rw [Option.map_eq_some'] at h
      obtain ⟨p, hp, hpe⟩ := h
      cases hpe
      have := ih p.1 p.2 hp
      simp only [List.length_cons]
      omega

/-- The `while self._has_message(): message = self._parse_message()` loop of
`BasicClient.on_data`, with `_has_message` / `_parse_message` instantiated to the
repository's codec (tests/mocks.py `mock_has_message` / `mock_parse_message`):
repeatedly split off the part of the buffer before the first `b'\r\n'`.
Returns the extracted lines in arrival order and the remaining buffer. -/
def drain (buf : List Char) : List (List Char) × List Char :=
  match h : splitFirst buf with
  | none => ([], buf)
  | some (msg, rest) =>
    let r := drain rest
    (msg :: r.1, r.2)
termination_by buf.length
decreasing_by exact splitFirst_length buf msg rest h

/-- `BasicClient.on_data`: append the received data to `self._receive_buffer`,
then extract every complete message and schedule `on_raw` for each via
`asyncio.create_task` — scheduling is modelled by returning the ordered list of
messages whose handlers are now pending; their execution happens afterwards and
cannot influence extraction.  `parseLine` is the codec's line parser. -/
def on_data (parseLine : List Char → Message) (st : ClientState) (data : List Char) :
    ClientState × List Message :=
  let r := drain (st.receive_buffer ++ data)
  ({ st with receive_buffer := r.2 }, r.1.map parseLine)

/-- Run the scheduled `on_raw` tasks in scheduling order, collecting each
task's caught-and-logged exception (if any). -/
def runScheduled (hasAttrF : String → Bool) (impl : String → Message → Except String Unit) :
    ClientState → List Message → ClientState × List (Option String)
  | st, [] => (st, [])
  | st, m :: ms =>
    let r1 := on_raw hasAttrF impl st m
    let r2 := runScheduled hasAttrF impl r1.1 ms
    (r2.1, r1.2 :: r2.2)

/-! ### Lemmas about the dict / set primitives -/

section DictLemmas

variable {α β : Type}

theorem dictGet_insert (k c : String) (v : α) :
    ∀ d : List (String × α),
      dictGet c (dictInsert k v d) = if k = c then some v else dictGet c d := by
  intro d
  induction d with
  | nil => simp [dictGet, dictInsert]
  | cons p rest ih =>
    obtain ⟨k', v'⟩ := p
    by_cases hk : k' = k
    · subst hk
      by_cases hc : k' = c <;> simp [dictGet, dictInsert, hc]
    · by_cases hc : k' = c
      · subst hc
        have : ¬ k = k' := fun h => hk h.symm
        simp [dictGet, dictInsert, hk, this]
      · simp [dictGet, dictInsert, hk, hc, ih]

theorem dictGet_insert_self (k : String) (v : α) (d : List (String × α)) :
    dictGet k (dictInsert k v d) = some v := by
  simp [dictGet_insert]

theorem dictGet_insert_ne (k c : String) (v : α) (d : List (String × α)) (h : k ≠ c) :
    dictGet c (dictInsert k v d) = dictGet c d := by
  simp [dictGet_insert, h]

theorem dictGet_erase_ne (k c : String) (h : k ≠ c) :
    ∀ d : List (String × α), dictGet c (dictErase k d) = dictGet c d := by
  intro d
  induction d with
  | nil => simp [dictGet, dictErase]
  | cons p rest ih =>
    obtain ⟨k', v'⟩ := p
    by_cases hk : k' = k
    · have hne : ¬ k' = c := fun hc0 => h (hk.symm.trans hc0)
      simp [dictGet, dictErase, hk, hne, h]
    · by_cases hc : k' = c <;> simp [dictGet, dictErase, hk, hc, ih, Ne.symm h]

theorem dictGet_eq_none_of_not_mem_keys (k : String) :
    ∀ d : List (String × α), k ∉ d.map Prod.fst → dictGet k d = none := by
  intro d
  induction d with
  | nil => intro _; rfl
  | cons p rest ih =>
    intro h
    simp only [List.map_cons, List.mem_cons] at h
    push_neg at h
    have hne : ¬ p.1 = k := fun he => h.1 he.symm
    obtain ⟨k', v'⟩ := p
    simp only [dictGet]
    simp only at hne
    simp [hne, ih h.2]

theorem dictGet_some_mem_keys (k : String) :
    ∀ d : List (String × α), (dictGet k d).isSome → k ∈ d.map Prod.fst := by
  intro d
  induction d with
  | nil => intro h; simp [dictGet] at h
  | cons p rest ih =>
    obtain ⟨k', v'⟩ := p
    intro h
    by_cases hk : k' = k
    · simp [hk]
    · simp only [dictGet, hk, if_false] at h
      simp [ih h]

theorem dictErase_sublist (k : String) :
    ∀ d : List (String × α), (dictErase k d).Sublist d := by
  intro d
  induction d with
  | nil => simp [dictErase]
  | cons p rest ih =>
    obtain ⟨k', v'⟩ := p
    by_cases hk : k' = k
    · simp only [dictErase, hk, if_pos rfl]
      exact (List.sublist_cons_self _ _)
    · simp only [dictErase, hk, if_false]
      exact ih.cons₂ _

theorem keys_erase_nodup (k : String) (d : List (String × α))
    (h : (d.map Prod.fst).Nodup) : ((dictErase k d).map Prod.fst).Nodup :=
  List.Nodup.sublist (List.Sublist.map Prod.fst (dictErase_sublist k d)) h

theorem dictGet_erase_self (k : String) :
    ∀ d : List (String × α), (d.map Prod.fst).Nodup → dictGet k (dictErase k d) = none := by
  intro d
  induction d with
  | nil => intro _; rfl
  | cons p rest ih =>
    obtain ⟨k', v'⟩ := p
    intro h
    simp only [List.map_cons, List.nodup_cons] at h
    by_cases hk : k' = k
    · subst hk
      simp only [dictErase, if_pos rfl]
      exact dictGet_eq_none_of_not_mem_keys k' rest h.1
    · simp only [dictErase, hk, if_false, dictGet]
      simp only at hk
      simp [hk, ih h.2]

theorem keys_insert_of_get_some (k : String) (v : α) :
    ∀ d : List (String × α), (dictGet k d).isSome →
      (dictInsert k v d).map Prod.fst = d.map Prod.fst := by
  intro d
  induction d with
  | nil => intro h; simp [dictGet] at h
  | cons p rest ih =>
    obtain ⟨k', v'⟩ := p
    intro h
    by_cases hk : k' = k
    · simp [dictInsert, hk]
    · simp only [dictGet, hk, if_false] at h
      simp [dictInsert, hk, ih h]

theorem mem_of_dictGet (k : String) (v : α) :
    ∀ d : List (String × α), dictGet k d = some v → (k, v) ∈ d := by
  intro d
  induction d with
  | nil => intro h; simp [dictGet] at h
  | cons p rest ih =>
    obtain ⟨k', v'⟩ := p
    intro h
    by_cases hk : k' = k
    · subst hk
      simp [dictGet] at h
      subst h
      exact List.mem_cons_self _ _
    · simp only [dictGet, hk, if_false] at h
      simp [ih h]

theorem dictGet_of_mem_nodup (k : String) (v : α) :
    ∀ d : List (String × α), (d.map Prod.fst).Nodup → (k, v) ∈ d →
      dictGet k d = some v := by
  intro d
  induction d with
  | nil => intro _ h; simp at h
  | cons p rest ih =>
    obtain ⟨k', v'⟩ := p
    intro hnd hmem
    simp only [List.map_cons, List.nodup_cons] at hnd
    rcases List.mem_cons.mp hmem with heq | htail
    · injection heq with h1 h2
      subst h1
      subst h2
      simp [dictGet]
    · have hk : ¬ k' = k := by
        intro he
        subst he
        exact hnd.1 (List.mem_map.mpr ⟨(k', v), htail, rfl⟩)
      simp [dictGet, hk, ih hnd.2 htail]

theorem any_eq_true_iff_exists_get (f : String × α → Bool) :
    ∀ d : List (String × α), (d.map Prod.fst).Nodup →
      (d.any f = true ↔ ∃ k v, dictGet k d = some v ∧ f (k, v) = true) := by
  intro d hnd
  constructor
  · intro h
    obtain ⟨p, hp, hf⟩ := List.any_eq_true.mp h
    exact ⟨p.1, p.2, dictGet_of_mem_nodup p.1 p.2 d hnd hp, hf⟩
  · intro ⟨k, v, hget, hf⟩
    exact List.any_eq_true.mpr ⟨(k, v), mem_of_dictGet k v d hget, hf⟩

theorem dictInsert_dictInsert (k : String) (v w : α) :
    ∀ d : List (String × α), dictInsert k v (dictInsert k w d) = dictInsert k v d := by
  intro d
  induction d with
  | nil => simp [dictInsert]
  | cons p rest ih =>
    obtain ⟨k', v'⟩ := p
    by_cases hk : k' = k
    · simp [dictInsert, hk]
    · simp [dictInsert, hk, ih]

theorem dictGet_map_value (g : α → β) (c : String) :
    ∀ l : List (String × α),
      dictGet c (l.map (fun p => (p.1, g p.2))) = (dictGet c l).map g := by
  intro l
  induction l with
  | nil => simp [dictGet]
  | cons p rest ih =>
    obtain ⟨k', v'⟩ := p
    by_cases hc : k' = c <;> simp [dictGet, hc, ih]

theorem keys_map_value (g : α → β) (l : List (String × α)) :
    (l.map (fun p => (p.1, g p.2))).map Prod.fst = l.map Prod.fst := by
  induction l with
  | nil => rfl
  | cons p rest ih => simp [ih]

theorem mem_setAdd (x y : String) (s : List String) :
    y ∈ setAdd x s ↔ y ∈ s ∨ y = x := by
  unfold setAdd
  by_cases h : x ∈ s
  · simp only [if_pos h]
    constructor
    · exact fun hy => Or.inl hy
    · rintro (hy | rfl)
      · exact hy
      · exact h
  · simp [if_neg h]

theorem mem_setDiscard (x y : String) (s : List String) :
    y ∈ setDiscard x s ↔ y ∈ s ∧ y ≠ x := by
  unfold setDiscard
  simp [List.mem_filter]

theorem not_mem_setDiscard_self (x : String) (s : List String) :
    x ∉ setDiscard x s := by
  intro h
  exact ((mem_setDiscard x x s).mp h).2 rfl

end DictLemmas

/-! ### Claim C3: reconnect delay table -/

/-- Claim C3: with reconnection and delayed reconnection enabled (the defaults),
the computed reconnect delay equals the table entry at index `n` for
`n ∈ 0..5` against `[5, 5, 10, 30, 120, 600]`, and equals `600` for `n ≥ 6`. -/
theorem claim_c3 :
    _reconnect_delay 0 = 5 ∧ _reconnect_delay 1 = 5 ∧ _reconnect_delay 2 = 10 ∧
    _reconnect_delay 3 = 30 ∧ _reconnect_delay 4 = 120 ∧ _reconnect_delay 5 = 600 ∧
    ∀ n, 6 ≤ n → _reconnect_delay n = 600 := by
  refine ⟨rfl, rfl, rfl, rfl, rfl, rfl, ?_⟩
  intro n hn
  unfold _reconnect_delay
  simp [RECONNECT_ON_ERROR, RECONNECT_DELAYED, RECONNECT_DELAYS, hn]

/-- Witness for C3 at the concrete out-of-table attempt `7`. -/
theorem claim_c3_witness : _reconnect_delay 7 = 600 :=
  claim_c3.2.2.2.2.2.2 7 (by decide)

/-! ### Claim C2: reconnection attempt counting -/

/-- Claim C2: with `RECONNECT_MAX_ATTEMPTS = 3`, each unexpected disconnect with
counter below 3 increments the counter and re-invokes connect (after the
computed delay); `on_connect` resets the counter to zero; after three
consecutive failed attempts with no intervening success the counter stands at 3
and a fourth unexpected disconnect performs no reconnect: it is a terminal
give-up that leaves the counter unchanged. -/
theorem claim_c2 :
    (∀ n, n < 3 →
      on_disconnect false n = (n + 1, ReconnectAction.reconnect (_reconnect_delay n))) ∧
    (∀ n, on_connect_reset n = 0) ∧
    afterDisconnects 3 = 3 ∧
    (∀ k, k < 3 →
      (on_disconnect false (afterDisconnects k)).2 =
        ReconnectAction.reconnect (_reconnect_delay k)) ∧
    on_disconnect false (afterDisconnects 3) = (3, ReconnectAction.giveUp) := by
  refine ⟨?_, fun n => rfl, by decide, ?_, by decide⟩
  · intro n hn
    unfold on_disconnect
    simp [RECONNECT_ON_ERROR, RECONNECT_MAX_ATTEMPTS, hn]
  · intro k hk
    interval_cases k <;> decide

/-- Witness for C2 at concrete counter values. -/
theorem claim_c2_witness :
    on_disconnect false 2 = (3, ReconnectAction.reconnect (_reconnect_delay 2)) ∧
    on_connect_reset 7 = 0 ∧
    (on_disconnect false (afterDisconnects 1)).2 =
      ReconnectAction.reconnect (_reconnect_delay 1) :=
  ⟨claim_c2.1 2 (by decide), claim_c2.2.1 7, claim_c2.2.2.2.1 1 (by decide)⟩

/-! ### Claim C4: dynamic handler resolution -/

/-- Claim C4: for an attribute with no defined implementation, `getattr` falls
through to `__getattr__`; an undefined `on_raw_*` name resolves to the
unknown-command handler when the top-level flag is set and to the silent no-op
when it is clear, and any other undefined name raises `AttributeError`. -/
theorem claim_c4 (attr : String) :
    (∀ hasAttrF : String → Bool, hasAttrF attr = false →
      ∀ tl, resolve hasAttrF tl attr = getattr_fallback tl attr) ∧
    (strStartsWith attr "on_raw_" = true →
      getattr_fallback true attr = Except.ok ResolvedHandler.onUnknown ∧
      getattr_fallback false attr = Except.ok ResolvedHandler.ignored) ∧
    (strStartsWith attr "on_raw_" = false →
      ∀ tl, getattr_fallback tl attr = Except.error attr) := by
  refine ⟨?_, ?_, ?_⟩
  · intro hasAttrF hf tl
    unfold resolve
    simp [hf]
  · intro hpre
    unfold getattr_fallback
    simp [hpre]
  · intro hpre tl
    unfold getattr_fallback
    simp [hpre]

/-- Witness for C4 at the concrete undefined names `on_raw_privmsg` / `nonexistent`. -/
theorem claim_c4_witness :
    resolve (fun _ => false) true "on_raw_privmsg" = Except.ok ResolvedHandler.onUnknown ∧
    getattr_fallback false "on_raw_privmsg" = Except.ok ResolvedHandler.ignored ∧
    getattr_fallback true "nonexistent" = Except.error "nonexistent" := by
  have h1 := (claim_c4 "on_raw_privmsg").1 (fun _ => false) rfl true
  have h2 := (claim_c4 "on_raw_privmsg").2.1 (by decide)
  have h3 := (claim_c4 "nonexistent").2.2 (by decide) true
  exact ⟨h1.trans h2.1, h2.2, h3⟩

/-! ### Claim C5: create_channel on an existing channel -/

/-- A state in which channel `#a` already exists with member `x`. -/
def stC5 : ClientState := ⟨false, [("#a", ["x"])], [], [], 0, false⟩

/-- Counterexample to claim C5 as stated: `_create_channel` on an existing
channel does not leave the mapping unchanged — the existing membership set of
`#a` is reset from `{x}` to empty. -/
theorem claim_c5_cex :
    dictGet "#a" stC5.channels = some ["x"] ∧
    dictGet "#a" (_create_channel stC5 "#a").channels = some [] := by
  constructor <;> rfl

/-- Claim C5 as amended: when `name` is already present, `create_channel(name)`
silently overwrites its entry with an empty membership set (the existing
membership is NOT preserved); entries of other channels are unchanged, and
repeating the call changes nothing further. -/
theorem claim_c5_amended (st : ClientState) (name : String)
    (hpresent : (dictGet name st.channels).isSome) :
    dictGet name (_create_channel st name).channels = some [] ∧
    (∀ c, c ≠ name → dictGet c (_create_channel st name).channels = dictGet c st.channels) ∧
    _create_channel (_create_channel st name) name = _create_channel st name := by
  refine ⟨?_, ?_, ?_⟩
  · exact dictGet_insert_self name [] st.channels
  · intro c hc
    exact dictGet_insert_ne name c [] st.channels (Ne.symm hc)
  · unfold _create_channel
    simp [dictInsert_dictInsert]

/-- Witness for the amended C5 on the concrete state `stC5`. -/
theorem claim_c5_amended_witness :
    dictGet "#a" (_create_channel stC5 "#a").channels = some [] ∧
    _create_channel (_create_channel stC5 "#a") "#a" = _create_channel stC5 "#a" :=
  ⟨(claim_c5_amended stC5 "#a" (by decide)).1, (claim_c5_amended stC5 "#a" (by decide)).2.2⟩

/-! ### Claim C7: connect argument validation -/

/-- A freshly initialized, disconnected client state. -/
def stC7 : ClientState := ⟨false, [], [], [], 0, false⟩

/-- Counterexample to claim C7 as stated: a non-reconnecting call that supplies
a hostname but omits the port does NOT pass the argument check — it raises the
invalid-argument error, because the source tests `not hostname or not port`. -/
theorem claim_c7_cex :
    connect stC7 (some "irc.example.com") none false =
      Except.error "Have to specify hostname and port if not reconnecting." := rfl

/-- Claim C7 as amended: `connect` fails with the invalid-argument error exactly
when hostname is absent (falsy) OR port is absent (falsy), and reconnect is
false; supplying only one of the two still raises. -/
theorem claim_c7_amended (st : ClientState) (hostname : Option String)
    (port : Option Nat) (reconnect : Bool) :
    (∃ e, connect st hostname port reconnect = Except.error e) ↔
      ((falsy_str hostname || falsy_nat port) && !reconnect) = true := by
  unfold connect
  cases hb : ((falsy_str hostname || falsy_nat port) && !reconnect) <;> simp [hb]

/-- Witness for the amended C7: concrete erroring and non-erroring calls. -/
theorem claim_c7_amended_witness :
    (∃ e, connect stC7 (some "h") none false = Except.error e) ∧
    ¬ (∃ e, connect stC7 (some "h") (some 6667) false = Except.error e) :=
  ⟨(claim_c7_amended stC7 (some "h") none false).mpr (by decide),
   fun hex => absurd ((claim_c7_amended stC7 (some "h") (some 6667) false).mp hex)
     (by decide)⟩

/-! ### Claim C1: handler failures are isolated from the read path -/

theorem on_raw_frame (hasAttrF : String → Bool) (impl : String → Message → Except String Unit)
    (st : ClientState) (m : Message) :
    (on_raw hasAttrF impl st m).1.connected = st.connected ∧
    (on_raw hasAttrF impl st m).1.receive_buffer = st.receive_buffer := by
  simp only [on_raw]
  split
  · exact ⟨rfl, rfl⟩
  · split <;> exact ⟨rfl, rfl⟩

theorem runScheduled_frame (hasAttrF : String → Bool)
    (impl : String → Message → Except String Unit) :
    ∀ (ms : List Message) (st : ClientState),
      (runScheduled hasAttrF impl st ms).1.connected = st.connected ∧
      (runScheduled hasAttrF impl st ms).1.receive_buffer = st.receive_buffer ∧
      (runScheduled hasAttrF impl st ms).2.length = ms.length := by
  intro ms
  induction ms with
  | nil => intro st; exact ⟨rfl, rfl, rfl⟩
  | cons m ms ih =>
    intro st
    simp only [runScheduled]
    obtain ⟨h1, h2⟩ := on_raw_frame hasAttrF impl st m
    obtain ⟨i1, i2, i3⟩ := ih (on_raw hasAttrF impl st m).1
    exact ⟨i1.trans h1, i2.trans h2, by simp [i3]⟩

/-- Claim C1: `on_raw` is total — a handler failure is caught at the dispatch
boundary (its `Except.error` only becomes a logged entry, nothing propagates),
it never alters the connected flag or the receive buffer; consequently after
draining the buffer and running every scheduled handler (even ones that raise)
the connection is still marked connected, every extracted message got its
dispatch, and the extraction is identical under any other handler set. -/
theorem claim_c1 (hasAttrF : String → Bool)
    (impl impl2 : String → Message → Except String Unit)
    (parseLine : List Char → Message) (st : ClientState) (data : List Char)
    (hconn : st.connected = true) :
    (∀ s m, (on_raw hasAttrF impl s m).1.connected = s.connected ∧
            (on_raw hasAttrF impl s m).1.receive_buffer = s.receive_buffer) ∧
    (runScheduled hasAttrF impl (on_data parseLine st data).1
        (on_data parseLine st data).2).1.connected = true ∧
    (runScheduled hasAttrF impl (on_data parseLine st data).1
        (on_data parseLine st data).2).2.length
      = (on_data parseLine st data).2.length ∧
    (runScheduled hasAttrF impl (on_data parseLine st data).1
        (on_data parseLine st data).2).2.length
      = (runScheduled hasAttrF impl2 (on_data parseLine st data).1
          (on_data parseLine st data).2).2.length := by
  obtain ⟨r1, -, r3⟩ :=
    runScheduled_frame hasAttrF impl (on_data parseLine st data).2 (on_data parseLine st data).1
  obtain ⟨-, -, q3⟩ :=
    runScheduled_frame hasAttrF impl2 (on_data parseLine st data).2 (on_data parseLine st data).1
  have hod : (on_data parseLine st data).1.connected = st.connected := rfl
  exact ⟨fun s m => on_raw_frame hasAttrF impl s m,
    r1.trans (hod.trans hconn), r3, r3.trans q3.symm⟩

/-- A connected client about to receive two complete messages. -/
def stC1 : ClientState := ⟨true, [], [], [], 0, false⟩

/-- Codec line parser used in the C1 witness. -/
def pLineC1 (l : List Char) : Message := ⟨Command.str (String.mk l), true, String.mk l⟩

/-- Witness for C1: a universally-raising handler set, a connected client, and
buffered data with two complete messages. -/
theorem claim_c1_witness :
    stC1.connected = true ∧
    (runScheduled (fun _ => true) (fun _ _ => Except.error "boom")
        (on_data pLineC1 stC1 ("PRIVMSG\r\nPING\r\n".data)).1
        (on_data pLineC1 stC1 ("PRIVMSG\r\nPING\r\n".data)).2).1.connected = true :=
  ⟨rfl, (claim_c1 (fun _ => true) (fun _ _ => Except.error "boom") (fun _ _ => Except.ok ())
      pLineC1 stC1 ("PRIVMSG\r\nPING\r\n".data) rfl).2.1⟩

/-! ### Claim C6: state reset on a non-reconnecting connect -/

/-- A disconnected client whose entity store is (unreachably, but the claim
quantifies over every prior state) non-empty. -/
def stC6 : ClientState := ⟨false, [("#a", ["x"])], [], [], 4, false⟩

/-- Counterexample to claim C6 as stated: calling `connect` with
`reconnect=false` on a client that was NOT connected before the call leaves a
non-empty entity store untouched — only the connection attributes are reset,
because `_reset_attributes` runs solely on the disconnect path. -/
theorem claim_c6_cex :
    ∃ st', connect stC6 (some "h") (some 6667) false = Except.ok st' ∧
      st'.channels = [("#a", ["x"])] ∧ st'.reconnect_attempts = 0 :=
  ⟨_, rfl, rfl, rfl⟩

/-- Claim C6 as amended: a valid non-reconnecting `connect` always resets the
reconnect-attempt counter to zero; the entity store and receive buffer are empty
upon return provided the client was connected before the call (the expected
disconnect resets them) or they were already empty. -/
theorem claim_c6_amended (st : ClientState) (hostname : Option String) (port : Option Nat)
    (hh : falsy_str hostname = false) (hp : falsy_nat port = false) :
    ∃ st', connect st hostname port false = Except.ok st' ∧
      st'.reconnect_attempts = 0 ∧
      (st.connected = true ∨ (st.channels = [] ∧ st.users = [] ∧ st.receive_buffer = []) →
        st'.channels = [] ∧ st'.users = [] ∧ st'.receive_buffer = []) := by
  have hcond : ((falsy_str hostname || falsy_nat port) && !false) = false := by
    simp [hh, hp]
  by_cases hc : st.connected
  · refine ⟨_connect_transport (_reset_connection_attributes (_disconnect_expected st)),
      ?_, rfl, fun _ => ⟨rfl, rfl, rfl⟩⟩
    unfold connect
    simp [hcond, hc, hh, hp]
  · refine ⟨_connect_transport (_reset_connection_attributes st), ?_, rfl, ?_⟩
    · unfold connect
      simp [hcond, hc, hh, hp]
    · rintro (h | ⟨h1, h2, h3⟩)
      · exact absurd h hc
      · exact ⟨h1, h2, h3⟩

/-- A connected client with a populated entity store. -/
def stC6b : ClientState :=
  ⟨true, [("#a", ["x"])], [("x", ⟨"x", none, none, none⟩)], ['z'], 4, true⟩

/-- Witness for the amended C6: from a connected, populated state the
non-reconnecting connect leaves everything reset, and even from the
disconnected, populated state `stC6` the attempt counter is still zeroed. -/
theorem claim_c6_amended_witness :
    (∃ st', connect stC6b (some "h") (some 6667) false = Except.ok st' ∧
      st'.reconnect_attempts = 0 ∧ st'.channels = [] ∧ st'.users = [] ∧
      st'.receive_buffer = []) ∧
    (∃ st', connect stC6 (some "h") (some 6667) false = Except.ok st' ∧
      st'.reconnect_attempts = 0) := by
  constructor
  · obtain ⟨st', h1, h2, h3⟩ :=
      claim_c6_amended stC6b (some "h") (some 6667) (by decide) (by decide)
    obtain ⟨e1, e2, e3⟩ := h3 (Or.inl rfl)
    exact ⟨st', h1, h2, e1, e2, e3⟩
  · obtain ⟨st', h1, h2, -⟩ :=
      claim_c6_amended stC6 (some "h") (some 6667) (by decide) (by decide)
    exact ⟨st', h1, h2⟩

/-! ### Claim C8: rename_user -/

section RenameLemmas

variable {α : Type}

theorem isSome_of_mem_keys (k : String) :
    ∀ d : List (String × α), k ∈ d.map Prod.fst → (dictGet k d).isSome := by
  intro d
  induction d with
  | nil => intro h; simp at h
  | cons p rest ih =>
    obtain ⟨k', v'⟩ := p
    intro h
    by_cases hk : k' = k
    · simp [dictGet, hk]
    · simp only [List.map_cons, List.mem_cons] at h
      rcases h with h | h
      · exact absurd h.symm hk
      · simp only [dictGet, hk, if_false]
        exact ih h

theorem keys_insert_of_get_none (k : String) (v : α) :
    ∀ d : List (String × α), dictGet k d = none →
      (dictInsert k v d).map Prod.fst = d.map Prod.fst ++ [k] := by
  intro d
  induction d with
  | nil => intro _; rfl
  | cons p rest ih =>
    obtain ⟨k', v'⟩ := p
    intro h
    by_cases hk : k' = k
    · simp [dictGet, hk] at h
    · simp only [dictGet, hk, if_false] at h
      simp [dictInsert, hk, ih h]

theorem keys_insert_nodup (k : String) (v : α) (d : List (String × α))
    (h : (d.map Prod.fst).Nodup) : ((dictInsert k v d).map Prod.fst).Nodup := by
  cases hg : dictGet k d with
  | some w =>
    rw [keys_insert_of_get_some k v d (by simp [hg])]
    exact h
  | none =>
    rw [keys_insert_of_get_none k v d hg]
    have hk : k ∉ d.map Prod.fst := by
      intro hmem
      have := isSome_of_mem_keys k d hmem
      simp [hg] at this
    simp [List.nodup_append, h, hk]

end RenameLemmas

theorem rename_map_eq (user new : String) (l : List (String × List String)) :
    l.map (fun p => if user ∈ p.2 then (p.1, setAdd new (setDiscard user p.2)) else p)
      = l.map (fun p => (p.1, if user ∈ p.2 then setAdd new (setDiscard user p.2) else p.2)) := by
  induction l with
  | nil => rfl
  | cons p rest ih =>
    by_cases h : user ∈ p.2 <;> simp [h, ih]

/-- A state with user `x` (with metadata) in channel `#a`. -/
def stC8 : ClientState :=
  ⟨false, [("#a", ["x"])], [("x", ⟨"x", some "ux", none, none⟩)], [], 0, false⟩

/-- Counterexample to claim C8 as stated: for the pair `(old, new) = ("x", "x")`
— `old` has a record, so the claim demands that afterwards the record sits under
key `new` with its attributes — `_rename_user` instead deletes the record
entirely: `self.users[new] = self.users[user]` is a self-assignment and the
subsequent `del self.users[user]` removes the freshly "relocated" record. -/
theorem claim_c8_cex :
    dictGet "x" stC8.users = some ⟨"x", some "ux", none, none⟩ ∧
    dictGet "x" (_rename_user stC8 "x" "x").users = none := ⟨rfl, rfl⟩

/-- Claim C8 as amended: for `old ≠ new`, if `old` has a record,
`rename_user(old, new)` relocates it under key `new` preserving the username,
realname and hostname attributes with the nickname field set to `new`, and every
channel that contained `old` now contains `new` and not `old`; if `old` has no
record, a fresh record for `new` is created instead, provided `new` is a
creatable nickname (non-empty and without a domain separator). -/
theorem claim_c8_amended (st : ClientState) (old new : String)
    (hne : old ≠ new) (hnodup : (st.users.map Prod.fst).Nodup) :
    (∀ u : UserRec, dictGet old st.users = some u →
      dictGet new (_rename_user st old new).users = some { u with nickname := new } ∧
      dictGet old (_rename_user st old new).users = none ∧
      (∀ c mem, dictGet c st.channels = some mem → old ∈ mem →
        dictGet c (_rename_user st old new).channels
          = some (setAdd new (setDiscard old mem)) ∧
        new ∈ setAdd new (setDiscard old mem) ∧
        old ∉ setAdd new (setDiscard old mem))) ∧
    (dictGet old st.users = none → new.isEmpty = false → new.contains '.' = false →
      dictGet new (_rename_user st old new).users = some ⟨new, none, none, none⟩) := by
  constructor
  · intro u hget
    unfold _rename_user
    simp only [hget]
    refine ⟨?_, ?_, ?_⟩
    · rw [dictGet_erase_ne old new hne, dictGet_insert_self]
    · exact dictGet_erase_self old _
        (keys_insert_nodup new { u with nickname := new } st.users hnodup)
    · intro c mem hc hmem
      refine ⟨?_, (mem_setAdd new new _).mpr (Or.inr rfl), ?_⟩
      · rw [rename_map_eq,
          dictGet_map_value (fun v => if old ∈ v then setAdd new (setDiscard old v) else v)
            c st.channels, hc]
        simp [hmem]
      · intro hold
        rcases (mem_setAdd new old _).mp hold with h | h
        · exact not_mem_setDiscard_self old mem h
        · exact hne h
  · intro h0 he hd
    unfold _rename_user
    simp only [h0]
    unfold _create_user
    simp [he, hd, dictGet_insert_self]

/-- A state with user `x` (full metadata) in channel `#a` alongside `z`. -/
def stC8b : ClientState :=
  ⟨false, [("#a", ["x", "z"])], [("x", ⟨"x", some "ux", some "rx", some "hx"⟩)], [], 0, false⟩

/-- Witness for the amended C8 on the concrete rename `x → y`. -/
theorem claim_c8_amended_witness :
    dictGet "y" (_rename_user stC8b "x" "y").users
        = some ⟨"y", some "ux", some "rx", some "hx"⟩ ∧
    dictGet "x" (_rename_user stC8b "x" "y").users = none ∧
    dictGet "#a" (_rename_user stC8b "x" "y").channels
        = some (setAdd "y" (setDiscard "x" ["x", "z"])) :=
  have h := (claim_c8_amended stC8b "x" "y" (by decide) (by decide)).1
    ⟨"x", some "ux", some "rx", some "hx"⟩ rfl
  ⟨h.1, h.2.1, (h.2.2 "#a" ["x", "z"] rfl (by decide)).1⟩

/-! ### Claim C9: destroy_channel -/

/-- `k` occupies some channel other than `name` in state `st`. -/
def inOtherChannel (st : ClientState) (name k : String) : Prop :=
  ∃ c mem2, c ≠ name ∧ dictGet c st.channels = some mem2 ∧ k ∈ mem2

theorem inOtherChannel_congr (st st' : ClientState) (name : String)
    (h : ∀ c, c ≠ name → dictGet c st'.channels = dictGet c st.channels) (k : String) :
    inOtherChannel st' name k ↔ inOtherChannel st name k := by
  constructor
  · rintro ⟨c, m2, hc, hg, hm⟩
    rw [h c hc] at hg
    exact ⟨c, m2, hc, hg, hm⟩
  · rintro ⟨c, m2, hc, hg, hm⟩
    rw [← h c hc] at hg
    exact ⟨c, m2, hc, hg, hm⟩

theorem any_check_iff (st : ClientState) (name u : String) (memCur : List String)
    (hck : (st.channels.map Prod.fst).Nodup)
    (hget : dictGet name st.channels = some memCur) :
    ((dictInsert name (setDiscard u memCur) st.channels).any
        (fun p => decide (u ∈ p.2)) = true) ↔ inOtherChannel st name u := by
  have hsome : (dictGet name st.channels).isSome := by simp [hget]
  have hkeys := keys_insert_of_get_some name (setDiscard u memCur) st.channels hsome
  rw [any_eq_true_iff_exists_get _ _ (by rw [hkeys]; exact hck)]
  constructor
  · rintro ⟨k, v, hkv, hf⟩
    simp only [decide_eq_true_eq] at hf
    by_cases hkn : k = name
    · subst hkn
      rw [dictGet_insert_self] at hkv
      injection hkv with hv
      subst hv
      exact absurd hf (not_mem_setDiscard_self u memCur)
    · rw [dictGet_insert_ne name k _ _ (fun h => hkn h.symm)] at hkv
      exact ⟨k, v, hkn, hkv, hf⟩
  · rintro ⟨c, mem2, hcn, hc, hm⟩
    refine ⟨c, mem2, ?_, by simpa using hm⟩
    rw [dictGet_insert_ne name c _ _ (fun h => hcn h.symm)]
    exact hc

theorem destroy_user_step (st : ClientState) (name u : String) (memCur : List String)
    (hck : (st.channels.map Prod.fst).Nodup)
    (hget : dictGet name st.channels = some memCur)
    (hu : (dictGet u st.users).isSome) :
    ∃ st', _destroy_user st u (some name) = some st' ∧
      st'.channels = dictInsert name (setDiscard u memCur) st.channels ∧
      (inOtherChannel st name u → st'.users = st.users) ∧
      (¬ inOtherChannel st name u → st'.users = dictErase u st.users) := by
  have hiff := any_check_iff st name u memCur hck hget
  by_cases hio : inOtherChannel st name u
  · have hany := hiff.mpr hio
    refine ⟨{ st with channels := dictInsert name (setDiscard u memCur) st.channels },
      ?_, rfl, fun _ => rfl, fun hno => absurd hio hno⟩
    unfold _destroy_user
    simp only [hget]
    simp [hany]
  · have hany : (dictInsert name (setDiscard u memCur) st.channels).any
        (fun p => decide (u ∈ p.2)) = false :=
      Bool.eq_false_iff.mpr (fun h => hio (hiff.mp h))
    refine ⟨⟨st.connected, dictInsert name (setDiscard u memCur) st.channels,
        dictErase u st.users, st.receive_buffer, st.reconnect_attempts,
        st.handler_top_level⟩,
      ?_, rfl, fun hio2 => absurd hio2 hio, fun _ => rfl⟩
    unfold _destroy_user
    simp only [hget]
    simp [hany, dictDel, hu]

theorem destroy_fold (name : String) (L : List String) :
    ∀ (st : ClientState) (memCur : List String),
      (st.channels.map Prod.fst).Nodup →
      (st.users.map Prod.fst).Nodup →
      dictGet name st.channels = some memCur →
      L.Nodup →
      (∀ u ∈ L, (dictGet u st.users).isSome) →
      ∃ st1, L.foldlM (fun s u => _destroy_user s u (some name)) st = some st1 ∧
        st1.channels.map Prod.fst = st.channels.map Prod.fst ∧
        (st1.users.map Prod.fst).Nodup ∧
        dictGet name st1.channels = some (L.foldl (fun m u => setDiscard u m) memCur) ∧
        (∀ c, c ≠ name → dictGet c st1.channels = dictGet c st.channels) ∧
        (∀ k, k ∈ L → ¬ inOtherChannel st name k → dictGet k st1.users = none) ∧
        (∀ k, (k ∉ L ∨ inOtherChannel st name k) →
          dictGet k st1.users = dictGet k st.users) := by
  induction L with
  | nil =>
    intro st memCur hck huk hget hnd hrecs
    exact ⟨st, rfl, rfl, huk, hget, fun c hc => rfl,
      fun k hk => absurd hk (List.not_mem_nil k), fun k hk => rfl⟩
  | cons u L' ih =>
    intro st memCur hck huk hget hnd hrecs
    have hu : (dictGet u st.users).isSome := hrecs u (List.mem_cons_self u L')
    obtain ⟨st', hstep, hch', hio1, hio2⟩ := destroy_user_step st name u memCur hck hget hu
    have hnotmem : u ∉ L' := (List.nodup_cons.mp hnd).1
    have hnd' : L'.Nodup := (List.nodup_cons.mp hnd).2
    have huserskeys : ∀ k, k ≠ u → dictGet k st'.users = dictGet k st.users := by
      by_cases hio : inOtherChannel st name u
      · rw [hio1 hio]; intro k _; rfl
      · rw [hio2 hio]; intro k hk; exact dictGet_erase_ne u k (fun h => hk h.symm) st.users
    have husersnodup : (st'.users.map Prod.fst).Nodup := by
      by_cases hio : inOtherChannel st name u
      · rw [hio1 hio]; exact huk
      · rw [hio2 hio]; exact keys_erase_nodup u st.users huk
    have hch'keys : st'.channels.map Prod.fst = st.channels.map Prod.fst := by
      rw [hch']; exact keys_insert_of_get_some name _ st.channels (by simp [hget])
    have hck' : (st'.channels.map Prod.fst).Nodup := by rw [hch'keys]; exact hck
    have hget' : dictGet name st'.channels = some (setDiscard u memCur) := by
      rw [hch']; exact dictGet_insert_self name _ st.channels
    have hother' : ∀ c, c ≠ name → dictGet c st'.channels = dictGet c st.channels := by
      intro c hc
      rw [hch']
      exact dictGet_insert_ne name c _ st.channels (fun h => hc h.symm)
    have hrecs' : ∀ v ∈ L', (dictGet v st'.users).isSome := by
      intro v hv
      rw [huserskeys v (fun h => hnotmem (h ▸ hv))]
      exact hrecs v (List.mem_cons_of_mem u hv)
    obtain ⟨st1, hfold, hkeys1, hund1, hname1, hother1, hdel1, hpres1⟩ :=
      ih st' (setDiscard u memCur) hck' husersnodup hget' hnd' hrecs'
    have hioc := inOtherChannel_congr st st' name hother'
    refine ⟨st1, ?_, ?_, hund1, hname1, ?_, ?_, ?_⟩
    · rw [List.foldlM_cons, hstep]
      simpa using hfold
    · rw [hkeys1, hch'keys]
    · intro c hc
      rw [hother1 c hc, hother' c hc]
    · intro k hk hnio
      rcases List.mem_cons.mp hk with hek | hkL
      · subst hek
        by_cases hio : inOtherChannel st name k
        · exact absurd hio hnio
        · rw [hpres1 k (Or.inl hnotmem), hio2 hio]
          exact dictGet_erase_self k st.users huk
      · exact hdel1 k hkL (fun h => hnio ((hioc k).mp h))
    · intro k hk
      rcases hk with hk | hio
      · have hkne : k ≠ u := fun h => hk (h ▸ List.mem_cons_self u L')
        have hkL : k ∉ L' := fun h => hk (List.mem_cons_of_mem u h)
        rw [hpres1 k (Or.inl hkL), huserskeys k hkne]
      · have hio' : inOtherChannel st' name k := (hioc k).mpr hio
        rw [hpres1 k (Or.inr hio')]
        by_cases hiou : inOtherChannel st name u
        · rw [hio1 hiou]
        · have hkne : k ≠ u := fun h => hiou (h ▸ hio)
          rw [hio2 hiou]
          exact dictGet_erase_ne u k (fun h => hkne h.symm) st.users

/-- A state whose only channel has the never-materialized member `irc.x`. -/
def stC9 : ClientState := ⟨false, [("#a", ["irc.x"])], [], [], 0, false⟩

/-- Counterexample to claim C9 as stated: destroying `#a`, whose sole member has
no record in the users mapping, raises `KeyError` (via `_destroy_user`) instead
of removing the channel — the claim's unconditional "removes name from the
channel mapping" fails. -/
theorem claim_c9_cex : _destroy_channel stC9 "#a" = none := rfl

/-- Claim C9 as amended: when every member of the (duplicate-free) membership
set of `name` has a record in the users mapping, `destroy_channel(name)` removes
`name` from the channel mapping, leaves every other channel's membership set
unchanged, deletes the global record of every former member occupying no other
channel, and preserves the record of every user who was not such a member. -/
theorem claim_c9_amended (st : ClientState) (name : String) (mem : List String)
    (hck : (st.channels.map Prod.fst).Nodup)
    (huk : (st.users.map Prod.fst).Nodup)
    (hget : dictGet name st.channels = some mem)
    (hmnd : mem.Nodup)
    (hrecs : ∀ u ∈ mem, (dictGet u st.users).isSome) :
    ∃ st', _destroy_channel st name = some st' ∧
      dictGet name st'.channels = none ∧
      (∀ c, c ≠ name → dictGet c st'.channels = dictGet c st.channels) ∧
      (∀ k, k ∈ mem → ¬ inOtherChannel st name k → dictGet k st'.users = none) ∧
      (∀ k, (k ∉ mem ∨ inOtherChannel st name k) →
        dictGet k st'.users = dictGet k st.users) := by
  obtain ⟨st1, hfold, hkeys, hund, hname1, hother, hdel, hpres⟩ :=
    destroy_fold name mem st mem hck huk hget hmnd hrecs
  refine ⟨{ st1 with channels := dictErase name st1.channels }, ?_, ?_, ?_, hdel, hpres⟩
  · unfold _destroy_channel
    simp only [hget, hfold, Option.map_some']
  · exact dictGet_erase_self name st1.channels (hkeys ▸ hck)
  · intro c hc
    have h1 : dictGet c (dictErase name st1.channels) = dictGet c st1.channels :=
      dictGet_erase_ne name c (fun h => hc h.symm) st1.channels
    exact h1.trans (hother c hc)

/-- A state with two channels: destroying `#a` must delete `x` (only in `#a`)
but keep `y` (also in `#b`) and leave `#b` untouched. -/
def stC9b : ClientState :=
  ⟨false, [("#a", ["x", "y"]), ("#b", ["y"])],
    [("x", ⟨"x", none, none, none⟩), ("y", ⟨"y", none, none, none⟩)], [], 0, false⟩

/-- Witness for the amended C9 on the concrete two-channel state. -/
theorem claim_c9_amended_witness :
    ∃ st', _destroy_channel stC9b "#a" = some st' ∧
      dictGet "#a" st'.channels = none ∧
      dictGet "#b" st'.channels = dictGet "#b" stC9b.channels ∧
      dictGet "x" st'.users = none ∧
      dictGet "y" st'.users = dictGet "y" stC9b.users := by
  obtain ⟨st', h1, h2, h3, h4, h5⟩ :=
    claim_c9_amended stC9b "#a" ["x", "y"] (by decide) (by decide) rfl (by decide) (by decide)
  refine ⟨st', h1, h2, h3 "#b" (by decide), ?_, ?_⟩
  · refine h4 "x" (by decide) ?_
    rintro ⟨c, m2, hc, hg, hm⟩
    have hmem := mem_of_dictGet c m2 _ hg
    simp only [stC9b, List.mem_cons, List.not_mem_nil, or_false] at hmem
    rcases hmem with h | h
    · injection h with ha hb
      exact hc ha
    · injection h with ha hb
      subst hb
      simp at hm
  · exact h5 "y" (Or.inr ⟨"#b", ["y"], by decide, rfl, by decide⟩)

/-! ### Claim C10: destroy_user is not total -/

/-- Claim C10: when `nickname` has no record in the users mapping,
`_destroy_user` with no channel argument — and with a channel argument whenever
the nickname afterwards occupies zero channels — raises `KeyError` (modelled as
`none`) at the final unguarded `del self.users[nickname]`. -/
theorem claim_c10 (st : ClientState) (nickname : String)
    (h : dictGet nickname st.users = none) :
    _destroy_user st nickname none = none ∧
    (∀ c mem, dictGet c st.channels = some mem →
      (dictInsert c (setDiscard nickname mem) st.channels).any
          (fun p => decide (nickname ∈ p.2)) = false →
      _destroy_user st nickname (some c) = none) := by
  constructor
  · unfold _destroy_user dictDel
    simp [h]
  · intro c mem hmem hany
    unfold _destroy_user dictDel
    simp [hmem, hany, h]

/-- Witness for C10: the server-style name `irc.x` sits in a membership set but
was never materialized as a user; destroying it raises. -/
theorem claim_c10_witness :
    _destroy_user (ClientState.mk false [("#a", ["irc.x"])] [] [] 0 false) "irc.x" none
        = none ∧
    _destroy_user (ClientState.mk false [("#a", ["irc.x"])] [] [] 0 false) "irc.x"
        (some "#a") = none :=
  ⟨(claim_c10 (ClientState.mk false [("#a", ["irc.x"])] [] [] 0 false) "irc.x" rfl).1,
   (claim_c10 (ClientState.mk false [("#a", ["irc.x"])] [] [] 0 false) "irc.x" rfl).2
     "#a" ["irc.x"] rfl (by decide)⟩

end Pydle
